import Mathlib

/-!
Verification development for the counsel-attribution and enrichment pipeline
in search_modules/law_firm_search.py.

The Python code is shallowly embedded: DataFrame rows become Lean structures,
pandas column operations become list transformations, and the external
collaborators (filing search, filing-type filter, name/ticker parser,
reference-ticker dataset, stock-loan feed, per-company document fetch) are
parameters of the pipeline, collected in the Externals structure.

String handling is implemented over List Char so that every definition
reduces inside the kernel; the Char-level functions mirror the ASCII
behaviour of the Python str methods used by the source (lower, upper,
strip, replace, substring containment, lexicographic comparison).
-/

namespace EquityIntel

/-- Lower-case an ASCII character, as Python str.lower does on ASCII input. -/
def lowerChar (c : Char) : Char :=
  if 65 ≤ c.toNat ∧ c.toNat ≤ 90 then Char.ofNat (c.toNat + 32) else c

/-- Upper-case an ASCII character, as Python str.upper does on ASCII input. -/
def upperChar (c : Char) : Char :=
  if 97 ≤ c.toNat ∧ c.toNat ≤ 122 then Char.ofNat (c.toNat - 32) else c

/-- Whitespace in the sense of Python str.strip and the regex class \s
(ASCII subset: space, tab, newline, carriage return, vertical tab, form feed). -/
def isSpaceChar (c : Char) : Bool :=
  c = ' ' || c = '\t' || c = '\n' || c = '\r' || c = '\x0b' || c = '\x0c'

/-- Strip leading and trailing whitespace from a character list (Python str.strip). -/
def trimL (l : List Char) : List Char :=
  ((l.dropWhile isSpaceChar).reverse.dropWhile isSpaceChar).reverse

/-- Python str.strip on a String. -/
def sTrim (s : String) : String := ⟨trimL s.data⟩

/-- Python str.lower on a String (ASCII). -/
def sLower (s : String) : String := ⟨s.data.map lowerChar⟩

/-- Python str.upper on a String (ASCII). -/
def sUpper (s : String) : String := ⟨s.data.map upperChar⟩

/-- Test whether the first list is a leading segment of the second. -/
def startsWithL : List Char → List Char → Bool
  | [], _ => true
  | _ :: _, [] => false
  | x :: xs, y :: ys => x = y && startsWithL xs ys

/-- Test whether the first list is a trailing segment of the second. -/
def endsWithL (pat l : List Char) : Bool :=
  startsWithL pat.reverse l.reverse

/-- Substring containment, as the Python operator a in b on strings.
The empty pattern is contained in everything, as in Python. -/
def containsSub (pat : List Char) : List Char → Bool
  | [] => startsWithL pat []
  | c :: cs => startsWithL pat (c :: cs) || containsSub pat cs

/-- String-level substring test: substrB a b is true when a occurs inside b. -/
def substrB (a b : String) : Bool := containsSub a.data b.data

/-- Fuelled worker for eraseSub; the fuel only serves to make the
recursion structural, any fuel at least the length of the list gives the
same result because each step consumes at least one character. -/
def eraseSubFuel (pat : List Char) : Nat → List Char → List Char
  | _, [] => []
  | 0, l => l
  | fuel + 1, c :: cs =>
    if 0 < pat.length ∧ startsWithL pat (c :: cs) = true then
      eraseSubFuel pat fuel ((c :: cs).drop pat.length)
    else
      c :: eraseSubFuel pat fuel cs

/-- Remove every (non-overlapping, leftmost-first) occurrence of pat,
as Python str.replace(pat, ""). -/
def eraseSub (pat : List Char) (l : List Char) : List Char :=
  eraseSubFuel pat l.length l

/-- Ticker cleaning from the source:
str.replace(' US Equity', '').strip().upper(). -/
def cleanTicker (s : String) : String :=
  sUpper (sTrim ⟨eraseSub " US Equity".data s.data⟩)

/-- Python str.zfill(10) for the digit strings used as CIKs. -/
def zfill10 (s : String) : String :=
  if s.data.length < 10 then ⟨List.replicate (10 - s.data.length) '0' ++ s.data⟩ else s

/-- Lexicographic comparison of character lists by code point,
matching Python string comparison. -/
def lexLe : List Char → List Char → Bool
  | [], _ => true
  | _ :: _, [] => false
  | x :: xs, y :: ys => if x.toNat = y.toNat then lexLe xs ys else decide (x.toNat < y.toNat)

/-- Python string less-or-equal, by code points. -/
def strLe (a b : String) : Bool := lexLe a.data b.data

/-- Minimum of a list of strings under strLe; this models sorted(xs)[0]
on a non-empty collection in the source. -/
def minString : List String → String
  | [] => ""
  | [x] => x
  | x :: y :: xs => if strLe x (minString (y :: xs)) then x else minString (y :: xs)

/-- Decimal digit character. -/
def digitChar (n : Nat) : Char := Char.ofNat (48 + n)

/-- Fuelled worker for natDigits; fuel at least the number gives the exact
decimal digit list. -/
def natDigitsFuel : Nat → Nat → List Char
  | 0, n => [digitChar (n % 10)]
  | fuel + 1, n =>
    if n < 10 then [digitChar n] else natDigitsFuel fuel (n / 10) ++ [digitChar (n % 10)]

/-- Decimal representation of a natural number as characters. -/
def natDigits (n : Nat) : List Char := natDigitsFuel n n

/-- Zero-padded decimal representation of width k, as strftime zero padding. -/
def padNat (k n : Nat) : String :=
  ⟨List.replicate (k - (natDigits n).length) '0' ++ natDigits n⟩

/-- Calendar date; pandas datetime values are totally ordered, which this
embedding realises through Date.toNat below. -/
structure Date where
  year : Nat
  month : Nat
  day : Nat
deriving DecidableEq, Repr

/-- Order-embedding of a date; for calendar dates (month at most 12, day at
most 31) this agrees with chronological order. -/
def Date.toNat (d : Date) : Nat := d.year * 10000 + d.month * 100 + d.day

/-- Chronological order on dates. -/
def dateLe (a b : Date) : Prop := a.toNat ≤ b.toNat

instance (a b : Date) : Decidable (dateLe a b) := Nat.decLe _ _

/-- Filing Date formatting from the source: strftime('%Y-%m-%d'). -/
def formatYMD (d : Date) : String :=
  padNat 4 d.year ++ "-" ++ padNat 2 d.month ++ "-" ++ padNat 2 d.day

/-- Raw filing record delivered by the external paginated search
(schema from the source and spec section 3). -/
structure RawFiling where
  company_name : String
  cik : String
  accession : String
  primary_doc : String
  filing_date : Date
  filing_type : String
deriving DecidableEq, Repr

/-- Filing after the name/ticker parse: the columns of df_filtered that the
rest of search_law_firm_for_companies reads. -/
structure Filing where
  clean_company_name : String
  ticker : String
  filing_date : Date
  cik : String
  accession : String
deriving DecidableEq, Repr

/-- Descending comparison used by sort_values('filing_date', ascending=False). -/
def gdate (a b : Filing) : Prop := b.filing_date.toNat ≤ a.filing_date.toNat

instance : DecidableRel gdate := fun _ _ => Nat.decLe _ _

instance : IsTotal Filing gdate :=
  ⟨fun a b => Nat.le_total b.filing_date.toNat a.filing_date.toNat⟩

instance : IsTrans Filing gdate :=
  ⟨fun _ _ _ h₁ h₂ => Nat.le_trans h₂ h₁⟩

/-- Embedding of df_filtered.sort_values('filing_date', ascending=False).
The source passes no kind argument, so pandas uses its default
kind='quicksort', which pandas documents as NOT stable: the relative order
of equal-dated records after the sort is unspecified (numpy's introsort
only degenerates to a stable insertion sort below its partition
threshold).  This model uses one concrete descending-sorted permutation,
insertion sort under gdate; therefore no theorem in this file may rely on
the tie order this particular choice happens to produce: properties proved
through dedupStage must hold for every descending-sorted permutation, and
tie-dependent behaviour is treated as undetermined by the source (see the
tie-order dependence theorem for the deduplication step). -/
def sort_values_desc (l : List Filing) : List Filing := l.insertionSort gdate

/-- Worker for drop_duplicates: keep the first record whose
clean_company_name has not been seen. -/
def dropDupAux (seen : List String) : List Filing → List Filing
  | [] => []
  | x :: xs =>
    if x.clean_company_name ∈ seen then dropDupAux seen xs
    else x :: dropDupAux (x.clean_company_name :: seen) xs

/-- Embedding of drop_duplicates(subset=['clean_company_name'], keep='first'). -/
def drop_duplicates_first (l : List Filing) : List Filing := dropDupAux [] l

/-- The Filing Deduplicator: sort descending by filing_date, then keep the
first occurrence of each clean_company_name. -/
def dedupStage (l : List Filing) : List Filing :=
  drop_duplicates_first (sort_values_desc l)

/-- The legal-entity suffix alternatives of the regex
\s+(llp|llc|p\.c\.|p\.a\.)$ from the source. -/
def legalSuffixes : List (List Char) :=
  ["llp".data, "llc".data, "p.c.".data, "p.a.".data]

/-- Test whether l ends with whitespace followed by the suffix t, i.e.
whether the anchored regex \s+t$ matches. -/
def trailingSuffixMatch (t l : List Char) : Bool :=
  endsWithL t l &&
    (match (l.take (l.length - t.length)).reverse with
     | [] => false
     | c :: _ => isSpaceChar c)

/-- Embedding of re.sub(r'\s+(llp|llc|p\.c\.|p\.a\.)$', '', s).strip():
when the anchored suffix regex matches, the suffix token and the whitespace
run before it are removed and the remainder is stripped; otherwise the
input is just stripped.  At most one alternative can match at the end of
the string, so searching the fixed alternative list is exact. -/
def stripSuffixL (l : List Char) : List Char :=
  match legalSuffixes.find? (fun t => trailingSuffixMatch t l) with
  | some t => trimL (l.take (l.length - t.length))
  | none => trimL l

/-- String form of the legal-suffix stripper. -/
def stripLegalSuffix (s : String) : String := ⟨stripSuffixL s.data⟩

/-- Fuzzy firm-name comparison from get_most_recent_lawyer_for_company
(lines 63-74 of the source), parameterised by clean_firm_name, which lives
in the external company_search module.  firm_name is the search target and
firm is an accumulated index key. -/
def firmMatches (clean_firm_name : String → String) (firm_name firm : String) : Bool :=
  substrB (stripLegalSuffix (sLower (clean_firm_name firm_name)))
      (stripLegalSuffix (sLower (clean_firm_name firm))) ||
    substrB (stripLegalSuffix (sLower (clean_firm_name firm)))
      (stripLegalSuffix (sLower (clean_firm_name firm_name))) ||
    (sLower (clean_firm_name firm_name) == sLower (clean_firm_name firm))

/-- Name normalisation as worded in the specification (section 4.1 composed
with the external clean_firm_name step): lower-case, strip one trailing
legal-entity suffix, trim whitespace. -/
def normalize_firm (clean_firm_name : String → String) (s : String) : String :=
  stripLegalSuffix (sLower (clean_firm_name s))

/-- Firm matching as worded in the specification (section 4.5 step 4):
normalise both names identically, then match when either normalised string
is a substring of the other or the two are equal.  Stated for comparison
with firmMatches, which is read off the source. -/
def firmMatchesSpec (clean_firm_name : String → String) (firm_name firm : String) : Bool :=
  substrB (normalize_firm clean_firm_name firm_name) (normalize_firm clean_firm_name firm) ||
    substrB (normalize_firm clean_firm_name firm) (normalize_firm clean_firm_name firm_name) ||
    (normalize_firm clean_firm_name firm_name == normalize_firm clean_firm_name firm)

/-- Combined guard under which the selection loop of
get_most_recent_lawyer_for_company returns from an index entry. -/
def lawyerEntryOk (clean_firm_name : String → String) (firm_name : String)
    (e : String × List String) : Bool :=
  firmMatches clean_firm_name firm_name e.1 && !e.2.isEmpty

/-- Selection loop of get_most_recent_lawyer_for_company (lines 67-79):
walk the accumulated firm-to-lawyers index in insertion order; on the first
key that passes the fuzzy match, if its lawyer set is non-empty return the
alphabetically first lawyer, otherwise keep scanning; None when the walk
finds nothing.  The index construction itself performs network fetches and
is therefore a parameter of the embedding. -/
def get_most_recent_lawyer_core (clean_firm_name : String → String) (firm_name : String) :
    List (String × List String) → Option String
  | [] => none
  | (firm, lawyers) :: rest =>
    if firmMatches clean_firm_name firm_name firm then
      if lawyers.isEmpty then get_most_recent_lawyer_core clean_firm_name firm_name rest
      else some (minString lawyers)
    else get_most_recent_lawyer_core clean_firm_name firm_name rest

/-- Reference-dataset record for one ticker (market cap plus 52-week range). -/
structure RefData where
  market_cap : Nat
  high : Nat
  low : Nat
deriving DecidableEq, Repr

/-- One record of the stock-loan availability feed. -/
structure LoanRow where
  symbol : String
  rebate : Int
  fee : Int
  available : Nat
deriving DecidableEq, Repr

/-- Working row of result_df between the projection from df_unique and the
final column selection.  Enrichment fields start at neutral values and are
filled by the stages that add the corresponding columns. -/
structure Row where
  company : String
  ticker : String
  filing_date : Date
  ticker_clean : String
  market_cap : Nat
  high : Nat
  low : Nat
  loan : Option (Int × Int × Nat)
  lawyer : Option String
deriving DecidableEq, Repr

/-- Projection of a deduplicated filing onto the initial result_df columns. -/
def toRow (f : Filing) : Row :=
  ⟨f.clean_company_name, f.ticker, f.filing_date, "", 0, 0, 0, none, none⟩

/-- Terminal pipeline errors; the Python code raises ValueError with a
distinct message at each site, and the spec names them NoResultsError (no
filings), NoMatchError (reference join empty), NoQualifyingCompanyError
(market-cap floor empty).  noRelevantFilings is the "No relevant filings
found" site and noReferenceTickers the caller-side "No companies found with
tickers in stock reference file" site. -/
inductive PipelineError where
  | noResults
  | noRelevantFilings
  | noMatch
  | noQualifyingCompany
  | noReferenceTickers
deriving DecidableEq, Repr

/-- Messages sent to the progress observer, one constructor per
progress_callback site of the source. -/
inductive ProgressMsg where
  | searching
  | totalFilings (n : Nat)
  | afterFilter (n : Nat)
  | uniqueCompanies (n : Nat)
  | filteringRef
  | addingLoan
  | loanNote (e : String)
  | extractingLawyers
  | lawyerProgress (done total : Nat)
  | complete (n : Nat)
deriving DecidableEq, Repr

/-- External collaborators of the pipeline, exactly the interface surface of
spec section 6: the filing-type filter, the name/ticker parser, the
reference-ticker dataset (as a lookup keyed by cleaned ticker, together
with which optional 52-week columns it provides), the stock-loan feed
outcome, and the per-company counsel extraction outcome (cik and company
name to lawyer result; an error models a raised per-task exception). -/
structure Externals where
  filterImportant : List RawFiling → List RawFiling
  extractTC : String → String × String
  refLookup : String → Option RefData
  refHasHigh : Bool
  refHasLow : Bool
  loanFetch : Except String (List LoanRow)
  lawyerFor : String → String → Except String (Option String)

/-- Apply the external name/ticker parser to every filtered raw record,
as the df_filtered company_name apply in the source. -/
def parseFilings (extractTC : String → String × String) (l : List RawFiling) : List Filing :=
  l.map (fun r => ⟨(extractTC r.company_name).1, (extractTC r.company_name).2,
    r.filing_date, r.cik, r.accession⟩)

/-- Modelled from the spec: filter_and_enrich_tickers lives in the
stock_reference module, which is not part of this repository.  Spec section
4.3: clean tickers are joined against the static reference table with
inner-join semantics (rows without a reference match are dropped), then the
market-cap floor (strictly above 500000000) is applied; zero survivors of
the join give NoMatchError and zero survivors of the floor give
NoQualifyingCompanyError. -/
def filter_and_enrich_tickers (refLookup : String → Option RefData) (rows : List Row) :
    Except PipelineError (List Row) :=
  let joined := rows.filterMap (fun r =>
    (refLookup r.ticker_clean).map (fun d =>
      { r with market_cap := d.market_cap, high := d.high, low := d.low }))
  if joined.isEmpty then Except.error PipelineError.noMatch
  else
    let floored := joined.filter (fun r => 500000000 < r.market_cap)
    if floored.isEmpty then Except.error PipelineError.noQualifyingCompany
    else Except.ok floored

/-- Symbol cleaning of the loan feed: str.strip().upper(). -/
def loanSymbolClean (t : LoanRow) : String := sUpper (sTrim t.symbol)

/-- Left merge of the stock-loan table onto result_df by cleaned ticker:
a row with no feed match is kept once with absent loan values, a row with
matches is repeated once per match, as pandas merge(how='left') does. -/
def mergeLoan (tbl : List LoanRow) (rows : List Row) : List Row :=
  rows.flatMap (fun r =>
    match tbl.filter (fun t => loanSymbolClean t == r.ticker_clean) with
    | [] => [{ r with loan := none }]
    | ms => ms.map (fun m => { r with loan := some (m.rebate, m.fee, m.available) }))

/-- Rebuild of the Bloomberg-format ticker after enrichment:
Ticker_Clean + ' US Equity'. -/
def rebuildTicker (rows : List Row) : List Row :=
  rows.map (fun r => { r with ticker := r.ticker_clean ++ " US Equity" })

/-- Construction of company_cik_map from df_unique: companies with a falsy
(empty) name or cik are skipped, the kept cik is zero-filled to 10 digits. -/
def build_company_cik_map (unique : List Filing) : List (String × String) :=
  unique.foldl
    (fun m row =>
      if row.clean_company_name ≠ "" ∧ row.cik ≠ "" then
        m ++ [(row.clean_company_name, zfill10 row.cik)]
      else m)
    []

/-- First-match association lookup, the dict.get of the source (the map is
built with distinct keys). -/
def lookupAssoc (m : List (String × String)) (k : String) : Option String :=
  (m.find? (fun e => e.1 == k)).map (fun e => e.2)

/-- Per-row task body extract_lawyer_for_row: companies without a cik
mapping (or with a falsy empty cik) answer None without touching the
network; otherwise the per-company Counsel Extractor runs, here the
external outcome function lawyerFor. -/
def extract_lawyer_for_row (cikMap : List (String × String))
    (lawyerFor : String → String → Except String (Option String))
    (company : String) : Except String (Option String) :=
  match lookupAssoc cikMap company with
  | none => Except.ok none
  | some cik => if cik = "" then Except.ok none else lawyerFor cik company

/-- Outcome of one scheduler slot as observed in the result table: a raised
exception is swallowed (no write), a falsy lawyer (None or empty string) is
not written, a non-empty lawyer string is written. -/
def taskView (res : Except String (Option String)) : Option String :=
  match res with
  | Except.ok (some s) => if s = "" then none else some s
  | _ => none

/-- Write-back of one completed future: result_df.at[idx, 'Most Recent
Lawyer'] = lawyer under "if lawyer:", with the surrounding
try/except: pass. -/
def taskWrite (arr : Array (Option String)) (i : Nat)
    (res : Except String (Option String)) : Array (Option String) :=
  match res with
  | Except.ok (some s) => if s = "" then arr else arr.setD i (some s)
  | _ => arr

/-- Task function of the scheduler: slot i runs extract_lawyer_for_row on
the company of row i. -/
def scheduleTasks (companies : List String) (cikMap : List (String × String))
    (lawyerFor : String → String → Except String (Option String)) :
    Nat → Except String (Option String) :=
  fun i =>
    match companies[i]? with
    | some c => extract_lawyer_for_row cikMap lawyerFor c
    | none => Except.ok none

/-- Lawyer column produced by draining as_completed in the completion order
given by order: each finished future writes (only) its own row slot. -/
def runScheduler (n : Nat) (task : Nat → Except String (Option String))
    (order : List Nat) : Array (Option String) :=
  order.foldl (fun arr i => taskWrite arr i (task i)) (Array.mkArray n none)

/-- Attach the computed lawyer column to the rows. -/
def attachLawyers (rows : List Row) (lw : Array (Option String)) : List Row :=
  List.zipWith (fun r ol => { r with lawyer := ol }) rows lw.toList

/-- Concurrent Attribution Scheduler: bounded pool over all rows, futures
keyed to row identity, results written back in completion order. -/
def runAttribution (cikMap : List (String × String))
    (lawyerFor : String → String → Except String (Option String))
    (order : List Nat) (rows : List Row) : List Row :=
  attachLawyers rows
    (runScheduler rows.length
      (scheduleTasks (rows.map (fun r => r.company)) cikMap lawyerFor) order)

/-- Progress messages of the scheduler drain: one report per ten
completions. -/
def schedulerMessages (total : Nat) : List ProgressMsg :=
  (List.range total).filterMap (fun i =>
    if (i + 1) % 10 = 0 then some (ProgressMsg.lawyerProgress (i + 1) total) else none)

/-- Row of the final returned table. -/
structure FinalRow where
  company : String
  ticker : String
  lawyer : String
  market_cap : Nat
  high : Nat
  low : Nat
  loan : Option (Int × Int × Nat)
  filing_date_str : String
deriving DecidableEq, Repr

/-- Final returned table: ordered column schema plus rows. -/
structure FinalTable where
  cols : List String
  rows : List FinalRow
deriving DecidableEq, Repr

/-- The three stock-loan columns, in source order. -/
def loanColumns : List String := ["Rebate Rate (%)", "Fee Rate (%)", "Available"]

/-- Final column order built by the Result Assembler (lines 233-249). -/
def finalColumns (hasHigh hasLow hasLoan : Bool) : List String :=
  ["Company", "Ticker", "Most Recent Lawyer", "Market Cap"]
    ++ (if hasHigh then ["52wk High"] else [])
    ++ (if hasLow then ["52wk Low"] else [])
    ++ (if hasLoan then loanColumns else [])
    ++ ["Filing Date"]

/-- Finalise one row: fillna('Not Found') on the lawyer and
strftime('%Y-%m-%d') on the filing date. -/
def toFinalRow (r : Row) : FinalRow :=
  ⟨r.company, r.ticker, r.lawyer.getD "Not Found", r.market_cap, r.high, r.low,
    r.loan, formatYMD r.filing_date⟩

/-- Result Assembler: final column list and finalised rows. -/
def assemble (hasHigh hasLow hasLoan : Bool) (rows : List Row) : FinalTable :=
  ⟨finalColumns hasHigh hasLow hasLoan, rows.map toFinalRow⟩

/-- Unique companies of a search: filter to important filings, parse name
and ticker, deduplicate to the most recent filing per company. -/
def uniqueCompanies (E : Externals) (results : List RawFiling) : List Filing :=
  dedupStage (parseFilings E.extractTC (E.filterImportant results))

/-- Projection of df_unique onto result_df with blank tickers dropped. -/
def blankDroppedRows (E : Externals) (results : List RawFiling) : List Row :=
  ((uniqueCompanies E results).map toRow).filter (fun r => r.ticker ≠ "")

/-- Stages of search_law_firm_for_companies up to (and including) the
reference-ticker enrichment, together with the progress log so far. -/
def preLoanStage (E : Externals) (results : List RawFiling) :
    Except PipelineError (List Filing × List Row × List ProgressMsg) :=
  if results.isEmpty then Except.error PipelineError.noResults
  else
    let filtered := E.filterImportant results
    if filtered.isEmpty then Except.error PipelineError.noRelevantFilings
    else
      let unique := uniqueCompanies E results
      let rows2 := (blankDroppedRows E results).map
        (fun r => { r with ticker_clean := cleanTicker r.ticker })
      match filter_and_enrich_tickers E.refLookup rows2 with
      | Except.error e => Except.error e
      | Except.ok rows3 =>
        if rows3.isEmpty then Except.error PipelineError.noReferenceTickers
        else
          Except.ok (unique, rows3,
            [ProgressMsg.searching, ProgressMsg.totalFilings results.length,
             ProgressMsg.afterFilter filtered.length,
             ProgressMsg.uniqueCompanies unique.length,
             ProgressMsg.filteringRef])

/-- Stock-Loan Enricher step: on feed success the loan columns are merged
in (flag true); on feed failure the step is skipped, the note goes to the
observer and the loan columns never exist (flag false). -/
def loanStage (E : Externals) (rows3 : List Row) : List Row × Bool × List ProgressMsg :=
  match E.loanFetch with
  | Except.ok tbl => (mergeLoan tbl rows3, true, [ProgressMsg.addingLoan])
  | Except.error e => (rows3, false, [ProgressMsg.addingLoan, ProgressMsg.loanNote e])

/-- Embedding of search_law_firm_for_companies: the whole pipeline from the
raw search results to the final table, returning the terminal error or the
table, together with the progress-observer transcript. -/
def search_law_firm_for_companies (E : Externals) (results : List RawFiling) :
    Except PipelineError FinalTable × List ProgressMsg :=
  match preLoanStage E results with
  | Except.error e => (Except.error e, [ProgressMsg.searching])
  | Except.ok (unique, rows3, log3) =>
    let stage := loanStage E rows3
    let rows5 := rebuildTicker stage.1
    let rows6 := runAttribution (build_company_cik_map unique) E.lawyerFor
      (List.range rows5.length) rows5
    let T := assemble E.refHasHigh E.refHasLow stage.2.1 rows6
    (Except.ok T,
      log3 ++ stage.2.2 ++ [ProgressMsg.extractingLawyers]
        ++ schedulerMessages rows5.length ++ [ProgressMsg.complete T.rows.length])

/-- View of a final row without the loan fields, used to compare runs that
differ only in the stock-loan feed. -/
structure NonLoanView where
  company : String
  ticker : String
  lawyer : String
  market_cap : Nat
  high : Nat
  low : Nat
  filing_date_str : String
deriving DecidableEq, Repr

/-- Forget the loan fields of a final row. -/
def nonLoanView (r : FinalRow) : NonLoanView :=
  ⟨r.company, r.ticker, r.lawyer, r.market_cap, r.high, r.low, r.filing_date_str⟩

/-! Concrete sample data used to evaluate the theorems on closed inputs. -/

/-- Sample firm-to-lawyers index whose first entry has an empty lawyer set. -/
def sampleIndexA : List (String × List String) := [("X Firm", []), ("Zed Firm", ["Bob", "Alice"])]

/-- Sample firm-to-lawyers index with one matching entry. -/
def sampleIndexB : List (String × List String) := [("acme llp", ["Zoe", "Ann"])]

/-- Sample company-to-CIK map with a single entry. -/
def sampleCikMap : List (String × String) := [("Acme Corp", "0000000099")]

/-- Counsel-extraction outcome that models a raised per-task exception. -/
def failTask : String → String → Except String (Option String) :=
  fun _ _ => Except.error "boom"

/-- Counsel-extraction outcome that always finds the same lawyer. -/
def okTask : String → String → Except String (Option String) :=
  fun _ _ => Except.ok (some "Jane Roe")

/-- Sample working rows for the scheduler. -/
def sampleRowA : Row := ⟨"Acme Corp", "ACME", ⟨2023, 6, 1⟩, "ACME", 600000000, 12, 7, none, none⟩

/-- Second sample working row, with a company absent from sampleCikMap. -/
def sampleRowB : Row := ⟨"Beta Inc", "BETA", ⟨2022, 1, 2⟩, "BETA", 700000000, 9, 3, none, none⟩

/-- Sample reference dataset: one ticker above the market-cap floor. -/
def sampleRef : String → Option RefData :=
  fun s => if s = "ACME" then some ⟨600000000, 12, 7⟩ else none

/-- Sample externals for a successful end-to-end run. -/
def sampleExternals : Externals :=
  ⟨fun l => l, fun s => (s, "ACME"), sampleRef, false, false, Except.ok [], okTask⟩

/-- Externals whose name/ticker parser yields a blank ticker for everything. -/
def blankExternals : Externals :=
  ⟨fun l => l, fun s => (s, ""), sampleRef, false, false, Except.ok [], okTask⟩

/-- Sample raw filing. -/
def sampleRaw : RawFiling := ⟨"Acme Corp", "99", "0001-23", "doc.htm", ⟨2023, 6, 1⟩, "10-K"⟩

/-- Sample search results. -/
def sampleResults : List RawFiling := [sampleRaw]

/-- Deduplicated companies of the sample run. -/
def sampleUnique : List Filing := [⟨"Acme Corp", "ACME", ⟨2023, 6, 1⟩, "99", "0001-23"⟩]

/-- Enriched rows of the sample run after the reference join. -/
def sampleRows3 : List Row :=
  [⟨"Acme Corp", "ACME", ⟨2023, 6, 1⟩, "ACME", 600000000, 12, 7, none, none⟩]

/-- Progress transcript of the sample run up to the reference join. -/
def sampleLog3 : List ProgressMsg :=
  [ProgressMsg.searching, ProgressMsg.totalFilings 1, ProgressMsg.afterFilter 1,
   ProgressMsg.uniqueCompanies 1, ProgressMsg.filteringRef]

/-- Sample filings for the deduplication theorems: two Acme Corp records
with different dates plus one other company. -/
def filA : Filing := ⟨"Acme Corp", "ACME", ⟨2023, 1, 1⟩, "1", "a1"⟩

/-- Later Acme Corp filing. -/
def filB : Filing := ⟨"Acme Corp", "ACME2", ⟨2023, 6, 1⟩, "2", "a2"⟩

/-- Unrelated company filing. -/
def filC : Filing := ⟨"Beta Inc", "BETA", ⟨2022, 5, 5⟩, "3", "a3"⟩

/-- First of two equal-dated filings for the same company. -/
def tieA : Filing := ⟨"Acme Corp", "T1", ⟨2023, 6, 1⟩, "10", "b1"⟩

/-- Second of two equal-dated filings for the same company. -/
def tieB : Filing := ⟨"Acme Corp", "T2", ⟨2023, 6, 1⟩, "11", "b2"⟩

/-- Sample filing list. -/
def sampleFilings : List Filing := [filA, filB, filC]

/-- Final row of the sample end-to-end run. -/
def sampleFinalRow : FinalRow :=
  ⟨"Acme Corp", "ACME US Equity", "Jane Roe", 600000000, 12, 7, none, "2023-06-01"⟩

/-- Final table of the sample end-to-end run. -/
def sampleTable : FinalTable :=
  ⟨["Company", "Ticker", "Most Recent Lawyer", "Market Cap",
    "Rebate Rate (%)", "Fee Rate (%)", "Available", "Filing Date"], [sampleFinalRow]⟩

/-- Progress transcript of the complete sample run. -/
def sampleFullLog : List ProgressMsg :=
  sampleLog3 ++ [ProgressMsg.addingLoan, ProgressMsg.extractingLawyers, ProgressMsg.complete 1]

/-- Two-row input for the scheduler theorems. -/
def sampleSchedulerRows : List Row := [sampleRowA, sampleRowB]

/-! Helper lemmas about the character-level string operations. -/

theorem startsWithL_self : ∀ l : List Char, startsWithL l l = true := by
  intro l
  induction l with
  | nil => rfl
  | cons x xs ih => simp [startsWithL, ih]

theorem containsSub_self : ∀ l : List Char, containsSub l l = true := by
  intro l
  cases l with
  | nil => rfl
  | cons x xs => simp [containsSub, startsWithL_self]

theorem substrB_self (s : String) : substrB s s = true :=
  containsSub_self s.data

theorem containsSub_nil_left : ∀ l : List Char, containsSub [] l = true := by
  intro l
  cases l with
  | nil => rfl
  | cons x xs => simp [containsSub, startsWithL]

theorem lexLe_refl : ∀ l : List Char, lexLe l l = true := by
  intro l
  induction l with
  | nil => rfl
  | cons x xs ih => simp [lexLe, ih]

theorem lexLe_total : ∀ a b : List Char, lexLe a b = true ∨ lexLe b a = true := by
  intro a
  induction a with
  | nil => intro b; left; rfl
  | cons x xs ih =>
    intro b
    cases b with
    | nil => right; rfl
    | cons y ys =>
      simp only [lexLe]
      by_cases hxy : x.toNat = y.toNat
      · rw [if_pos hxy, if_pos hxy.symm]
        exact ih ys
      · rw [if_neg hxy, if_neg (fun e => hxy e.symm)]
        rcases Nat.lt_or_ge x.toNat y.toNat with h | h
        · left; exact decide_eq_true h
        · right
          exact decide_eq_true (Nat.lt_of_le_of_ne h (fun e => hxy e.symm))

theorem lexLe_trans : ∀ a b c : List Char,
    lexLe a b = true → lexLe b c = true → lexLe a c = true := by
  intro a
  induction a with
  | nil => intro b c _ _; rfl
  | cons x xs ih =>
    intro b c hab hbc
    cases b with
    | nil => exact absurd hab (by simp [lexLe])
    | cons y ys =>
      cases c with
      | nil => exact absurd hbc (by simp [lexLe])
      | cons z zs =>
        simp only [lexLe] at hab hbc ⊢
        by_cases hxy : x.toNat = y.toNat
        · rw [if_pos hxy] at hab
          by_cases hyz : y.toNat = z.toNat
          · rw [if_pos hyz] at hbc
            rw [if_pos (hxy.trans hyz)]
            exact ih ys zs hab hbc
          · rw [if_neg hyz] at hbc
            have hlt := of_decide_eq_true hbc
            rw [if_neg (by omega)]
            exact decide_eq_true (by omega)
        · rw [if_neg hxy] at hab
          have hlt1 := of_decide_eq_true hab
          by_cases hyz : y.toNat = z.toNat
          · rw [if_pos hyz] at hbc
            rw [if_neg (by omega)]
            exact decide_eq_true (by omega)
          · rw [if_neg hyz] at hbc
            have hlt2 := of_decide_eq_true hbc
            rw [if_neg (by omega)]
            exact decide_eq_true (by omega)

theorem strLe_refl (s : String) : strLe s s = true := lexLe_refl s.data

theorem strLe_total (a b : String) : strLe a b = true ∨ strLe b a = true :=
  lexLe_total a.data b.data

theorem strLe_trans {a b c : String} (h₁ : strLe a b = true) (h₂ : strLe b c = true) :
    strLe a c = true := lexLe_trans a.data b.data c.data h₁ h₂

theorem minString_mem : ∀ l : List String, l ≠ [] → minString l ∈ l
  | [], h => absurd rfl h
  | [x], _ => by simp [minString]
  | x :: y :: ys, _ => by
    have hm := minString_mem (y :: ys) (by simp)
    by_cases hc : strLe x (minString (y :: ys)) = true
    · simp only [minString, if_pos hc]
      exact List.mem_cons_self x _
    · simp only [minString, if_neg hc]
      exact List.mem_cons_of_mem x hm

theorem minString_le : ∀ l : List String, ∀ s ∈ l, strLe (minString l) s = true
  | [], s, hs => by cases hs
  | [x], s, hs => by
    have : s = x := by simpa using hs
    subst this
    simp [minString, strLe_refl]
  | x :: y :: ys, s, hs => by
    rcases List.mem_cons.mp hs with rfl | hmem
    · by_cases hc : strLe s (minString (y :: ys)) = true
      · simp only [minString, if_pos hc]
        exact strLe_refl s
      · simp only [minString, if_neg hc]
        rcases strLe_total s (minString (y :: ys)) with h | h
        · exact absurd h hc
        · exact h
    · have ihs := minString_le (y :: ys) s hmem
      by_cases hc : strLe x (minString (y :: ys)) = true
      · simp only [minString, if_pos hc]
        exact strLe_trans hc ihs
      · simp only [minString, if_neg hc]
        exact ihs

theorem substrB_empty_left (b : String) : substrB "" b = true :=
  containsSub_nil_left b.data

/-- C5: in the Counsel Extractor firm-matching step, the target firm name
and every accumulated firm key are normalised by the same composite
(clean_firm_name, lower-case, legal-suffix strip), and the source's test
(substring either way on suffix-stripped forms, or equality of the
unstripped lower-cased forms) accepts a key exactly when the
specification's three-way fuzzy test on identically normalised strings
does. -/
theorem fuzzy_firm_match_matches_spec (cfn : String → String) (t k : String) :
    firmMatches cfn t k = firmMatchesSpec cfn t k := by
  unfold firmMatches firmMatchesSpec normalize_firm
  by_cases h2 : stripLegalSuffix (sLower (cfn t)) = stripLegalSuffix (sLower (cfn k))
  · rw [h2]
    simp [substrB_self]
  · by_cases h1 : sLower (cfn t) = sLower (cfn k)
    · exact absurd (congrArg stripLegalSuffix h1) h2
    · have e1 : (sLower (cfn t) == sLower (cfn k)) = false := by simp [h1]
      have e2 : (stripLegalSuffix (sLower (cfn t)) == stripLegalSuffix (sLower (cfn k))) = false := by
        simp [h2]
      rw [e1, e2]

/-- C10: when the target firm name normalises to the empty string (after
clean_firm_name, lower-casing and legal-suffix stripping), the substring
arm of the fuzzy match accepts every accumulated firm key, so the
selection loop returns the alphabetically first lawyer of the first index
entry with a non-empty lawyer set, regardless of which firm that is. -/
theorem empty_normalized_target_matches_all (cfn : String → String) (fn : String)
    (idx : List (String × List String))
    (h : stripLegalSuffix (sLower (cfn fn)) = "") :
    (∀ e ∈ idx, firmMatches cfn fn e.1 = true) ∧
    get_most_recent_lawyer_core cfn fn idx =
      (idx.find? (fun e => !e.2.isEmpty)).map (fun e => minString e.2) := by
  have hmatch : ∀ k : String, firmMatches cfn fn k = true := by
    intro k
    unfold firmMatches
    rw [h]
    simp [substrB_empty_left]
  refine ⟨fun e _ => hmatch e.1, ?_⟩
  induction idx with
  | nil => rfl
  | cons e rest ih =>
    obtain ⟨k, ls⟩ := e
    simp only [get_most_recent_lawyer_core]
    rw [if_pos (hmatch k)]
    by_cases he : ls.isEmpty = true
    · rw [if_pos he, List.find?_cons_of_neg _ (by simp [he]), ih]
    · rw [if_neg he, List.find?_cons_of_pos _ (by simp [he])]
      rfl

/-- C10 witness: a target consisting of whitespace and a legal suffix
normalises to the empty string; on a concrete index whose first entry has
an empty lawyer set, the lawyer of the second entry is returned. -/
theorem empty_normalized_target_witness :
    stripLegalSuffix (sLower ((fun s => s) " llp")) = "" ∧
    get_most_recent_lawyer_core (fun s => s) " llp" sampleIndexA = some "Alice" :=
  ⟨rfl,
    ((empty_normalized_target_matches_all (fun s => s) " llp" sampleIndexA rfl).2).trans (by rfl)⟩

/-- C8: the selection loop returns the alphabetically first lawyer of the
first index entry whose firm key passes the fuzzy match and whose lawyer
set is non-empty, and None exactly when no such entry exists; the returned
name is a member of that entry's lawyer set and is a lower bound of it in
the code-point string order. -/
theorem lawyer_selection_first_match (cfn : String → String) (fn : String)
    (idx : List (String × List String)) :
    get_most_recent_lawyer_core cfn fn idx =
      (idx.find? (lawyerEntryOk cfn fn)).map (fun e => minString e.2) ∧
    (∀ k ls, idx.find? (lawyerEntryOk cfn fn) = some (k, ls) →
      minString ls ∈ ls ∧ ∀ s ∈ ls, strLe (minString ls) s = true) := by
  constructor
  · induction idx with
    | nil => rfl
    | cons e rest ih =>
      obtain ⟨k, ls⟩ := e
      simp only [get_most_recent_lawyer_core]
      by_cases hm : firmMatches cfn fn k = true
      · rw [if_pos hm]
        by_cases he : ls.isEmpty = true
        · rw [if_pos he, List.find?_cons_of_neg _ (by simp [lawyerEntryOk, he])]
          exact ih
        · rw [if_neg he, List.find?_cons_of_pos _ (by simp [lawyerEntryOk, hm, he])]
          rfl
      · rw [if_neg hm, List.find?_cons_of_neg _ (by simp [lawyerEntryOk, hm])]
        exact ih
  · intro k ls hf
    have hp := List.find?_some hf
    simp only [lawyerEntryOk, Bool.and_eq_true, Bool.not_eq_true'] at hp
    have hne : ls ≠ [] := by
      intro hnil
      subst hnil
      simp at hp
    exact ⟨minString_mem ls hne, minString_le ls⟩

/-- C8 witness: on a concrete index the matching entry is found and the
alphabetically first of its lawyers is returned. -/
theorem lawyer_selection_witness :
    sampleIndexB.find? (lawyerEntryOk (fun s => s) "Acme") = some ("acme llp", ["Zoe", "Ann"]) ∧
    get_most_recent_lawyer_core (fun s => s) "Acme" sampleIndexB = some "Ann" ∧
    minString ["Zoe", "Ann"] ∈ ["Zoe", "Ann"] ∧
    ∀ s ∈ ["Zoe", "Ann"], strLe (minString ["Zoe", "Ann"]) s = true :=
  ⟨rfl,
    ((lawyer_selection_first_match (fun s => s) "Acme" sampleIndexB).1).trans (by rfl),
    ((lawyer_selection_first_match (fun s => s) "Acme" sampleIndexB).2
      "acme llp" ["Zoe", "Ann"] rfl).1,
    ((lawyer_selection_first_match (fun s => s) "Acme" sampleIndexB).2
      "acme llp" ["Zoe", "Ann"] rfl).2⟩

/-- C9: a company whose clean name has no entry in the CIK map gets the
not-found outcome from extract_lawyer_for_row, and the result does not
depend on the per-company extractor at all, so no network call is made. -/
theorem no_cik_no_network (cikMap : List (String × String)) (company : String)
    (h : lookupAssoc cikMap company = none)
    (f g : String → String → Except String (Option String)) :
    extract_lawyer_for_row cikMap f company = Except.ok none ∧
    taskView (extract_lawyer_for_row cikMap f company) = none ∧
    extract_lawyer_for_row cikMap f company = extract_lawyer_for_row cikMap g company := by
  unfold extract_lawyer_for_row
  rw [h]
  exact ⟨rfl, rfl, rfl⟩

theorem assemble_schema (a b c : Bool) (rows : List Row) :
    (assemble a b c rows).cols = ["Company", "Ticker", "Most Recent Lawyer", "Market Cap"]
        ++ (if a then ["52wk High"] else [])
        ++ (if b then ["52wk Low"] else [])
        ++ (if "Rebate Rate (%)" ∈ (assemble a b c rows).cols then loanColumns else [])
        ++ ["Filing Date"] ∧
    ("Rebate Rate (%)" ∈ (assemble a b c rows).cols ↔ "Fee Rate (%)" ∈ (assemble a b c rows).cols) ∧
    ("Fee Rate (%)" ∈ (assemble a b c rows).cols ↔ "Available" ∈ (assemble a b c rows).cols) ∧
    ∀ r ∈ (assemble a b c rows).rows, ∃ d : Date, r.filing_date_str = formatYMD d := by
  have hc : (assemble a b c rows).cols = finalColumns a b c := rfl
  refine ⟨?_, ?_, ?_, ?_⟩
  · rw [hc]
    cases a <;> cases b <;> cases c <;> decide
  · rw [hc]
    cases a <;> cases b <;> cases c <;> decide
  · rw [hc]
    cases a <;> cases b <;> cases c <;> decide
  · intro r hr
    rcases List.mem_map.mp hr with ⟨row, _, rfl⟩
    exact ⟨row.filing_date, rfl⟩

/-- C6: the Result Assembler always produces Company, Ticker, Most Recent
Lawyer, Market Cap first, then 52wk High and 52wk Low exactly when the
reference data provides them, then the three loan columns as a group (all
three present or all three absent), then Filing Date last, with every
row's Filing Date a formatted YYYY-MM-DD string. -/
theorem result_assembler_schema (E : Externals) (results : List RawFiling)
    (T : FinalTable) (log : List ProgressMsg)
    (h : search_law_firm_for_companies E results = (Except.ok T, log)) :
    T.cols = ["Company", "Ticker", "Most Recent Lawyer", "Market Cap"]
        ++ (if E.refHasHigh then ["52wk High"] else [])
        ++ (if E.refHasLow then ["52wk Low"] else [])
        ++ (if "Rebate Rate (%)" ∈ T.cols then loanColumns else [])
        ++ ["Filing Date"] ∧
    ("Rebate Rate (%)" ∈ T.cols ↔ "Fee Rate (%)" ∈ T.cols) ∧
    ("Fee Rate (%)" ∈ T.cols ↔ "Available" ∈ T.cols) ∧
    ∀ r ∈ T.rows, ∃ d : Date, r.filing_date_str = formatYMD d := by
  unfold search_law_firm_for_companies at h
  cases hpre : preLoanStage E results with
  | error e =>
    rw [hpre] at h
    simp at h
  | ok tup =>
    obtain ⟨unique, rows3, log3⟩ := tup
    rw [hpre] at h
    rw [Prod.ext_iff] at h
    obtain ⟨hT, _⟩ := h
    simp only [Except.ok.injEq] at hT
    subst hT
    exact assemble_schema E.refHasHigh E.refHasLow _ _

/-- C6 witness: the sample run returns the expected table, whose columns
and formatted dates instantiate the schema theorem. -/
theorem result_assembler_schema_witness :
    search_law_firm_for_companies sampleExternals sampleResults =
      (Except.ok sampleTable, sampleFullLog) ∧
    sampleTable.cols = ["Company", "Ticker", "Most Recent Lawyer", "Market Cap"]
        ++ (if sampleExternals.refHasHigh then ["52wk High"] else [])
        ++ (if sampleExternals.refHasLow then ["52wk Low"] else [])
        ++ (if "Rebate Rate (%)" ∈ sampleTable.cols then loanColumns else [])
        ++ ["Filing Date"] ∧
    ∀ r ∈ sampleTable.rows, ∃ d : Date, r.filing_date_str = formatYMD d := by
  have hrun : search_law_firm_for_companies sampleExternals sampleResults =
      (Except.ok sampleTable, sampleFullLog) := by
    rfl
  exact ⟨hrun,
    (result_assembler_schema sampleExternals sampleResults sampleTable sampleFullLog hrun).1,
    (result_assembler_schema sampleExternals sampleResults sampleTable sampleFullLog hrun).2.2.2⟩

theorem getElem?_setD_ne (a : Array (Option String)) (i j : Nat) (v : Option String)
    (hij : i ≠ j) : (a.setD j v)[i]? = a[i]? := by
  unfold Array.setD
  split
  · next hj =>
    exact Array.getElem?_set_ne a ⟨j, hj⟩ v (by simpa using fun e => hij e.symm)
  · rfl

theorem taskWrite_of_view_none (arr : Array (Option String)) (i : Nat)
    (res : Except String (Option String)) (h : taskView res = none) :
    taskWrite arr i res = arr := by
  cases res with
  | error e => rfl
  | ok o =>
    cases o with
    | none => rfl
    | some s =>
      by_cases hs : s = ""
      · simp [taskWrite, hs]
      · simp [taskView, hs] at h

theorem taskWrite_of_view_some (arr : Array (Option String)) (i : Nat)
    (res : Except String (Option String)) (s : String) (h : taskView res = some s) :
    taskWrite arr i res = arr.setD i (some s) := by
  cases res with
  | error e => simp [taskView] at h
  | ok o =>
    cases o with
    | none => simp [taskView] at h
    | some t =>
      by_cases hs : t = ""
      · simp [taskView, hs] at h
      · simp only [taskView, if_neg hs, Option.some.injEq] at h
        subst h
        simp [taskWrite, hs]

theorem scheduler_fold_size (task : Nat → Except String (Option String)) :
    ∀ (order : List Nat) (arr : Array (Option String)),
      (order.foldl (fun a j => taskWrite a j (task j)) arr).size = arr.size := by
  intro order
  induction order with
  | nil => intro arr; rfl
  | cons j rest ih =>
    intro arr
    rw [List.foldl_cons, ih]
    cases htv : taskView (task j) with
    | none => rw [taskWrite_of_view_none arr j _ htv]
    | some s => rw [taskWrite_of_view_some arr j _ s htv, Array.size_setD]

theorem scheduler_fold_get (task : Nat → Except String (Option String)) (i : Nat) :
    ∀ (order : List Nat) (arr : Array (Option String)) (v : Option String),
      arr[i]? = some v →
      (order.foldl (fun a j => taskWrite a j (task j)) arr)[i]? =
        some (if i ∈ order then
          (match taskView (task i) with | some s => some s | none => v) else v) := by
  intro order
  induction order with
  | nil =>
    intro arr v hv
    simpa using hv
  | cons j rest ih =>
    intro arr v hv
    rw [List.foldl_cons]
    by_cases hij : i = j
    · subst hij
      cases htv : taskView (task i) with
      | none =>
        rw [taskWrite_of_view_none arr i _ htv, ih arr v hv]
        by_cases hr : i ∈ rest <;> simp [hr, htv]
      | some s =>
        rw [taskWrite_of_view_some arr i _ s htv]
        have hlt : i < arr.size := by
          by_contra hge
          have hnone : arr[i]? = none := Array.getElem?_eq_none_iff.mpr (Nat.le_of_not_lt hge)
          rw [hnone] at hv
          exact Option.noConfusion hv
        have harr : (arr.setD i (some s))[i]? = some (some s) :=
          Array.getElem?_setD_eq arr hlt (some s)
        rw [ih (arr.setD i (some s)) (some s) harr]
        by_cases hr : i ∈ rest <;> simp [hr, htv]
    · have harr : (taskWrite arr j (task j))[i]? = some v := by
        cases htj : taskView (task j) with
        | none => rw [taskWrite_of_view_none arr j _ htj]; exact hv
        | some s =>
          rw [taskWrite_of_view_some arr j _ s htj, getElem?_setD_ne arr i j (some s) hij]
          exact hv
      rw [ih (taskWrite arr j (task j)) v harr]
      simp [List.mem_cons, hij]

theorem runScheduler_get (n : Nat) (task : Nat → Except String (Option String))
    (order : List Nat) (hperm : order.Perm (List.range n)) (i : Nat) (hi : i < n) :
    (runScheduler n task order)[i]? = some (taskView (task i)) := by
  have hmem : i ∈ order := hperm.mem_iff.mpr (List.mem_range.mpr hi)
  have h0 : (Array.mkArray n (none : Option String))[i]? = some none := by
    rw [Array.getElem?_mkArray, if_pos hi]
  unfold runScheduler
  rw [scheduler_fold_get task i order (Array.mkArray n none) none h0, if_pos hmem]
  cases htv : taskView (task i) <;> simp [htv]

theorem runScheduler_size (n : Nat) (task : Nat → Except String (Option String))
    (order : List Nat) : (runScheduler n task order).size = n := by
  unfold runScheduler
  rw [scheduler_fold_size]
  exact Array.size_mkArray n none

/-- C4: for every set of dispatched rows and every combination of per-task
outcomes (found, not found, or raised exception) and every completion
order, the attribution step returns as many rows as it received, the
content of row i depends only on task i (never on the completion order and
never by an escaping exception), and a row whose task raised keeps the
not-found lawyer value. -/
theorem attribution_scheduler_total (cikMap : List (String × String))
    (lf : String → String → Except String (Option String))
    (rows : List Row) (order : List Nat)
    (hperm : order.Perm (List.range rows.length)) :
    (runAttribution cikMap lf order rows).length = rows.length ∧
    (∀ i : Nat, (runAttribution cikMap lf order rows)[i]? =
      (rows[i]?).map (fun r =>
        { r with lawyer :=
            taskView (scheduleTasks (rows.map (fun x => x.company)) cikMap lf i) })) ∧
    (∀ i e, scheduleTasks (rows.map (fun x => x.company)) cikMap lf i = Except.error e →
      (runAttribution cikMap lf order rows)[i]? =
        (rows[i]?).map (fun r => { r with lawyer := none })) := by
  have hsize : (runScheduler rows.length
      (scheduleTasks (rows.map (fun x => x.company)) cikMap lf) order).size = rows.length :=
    runScheduler_size _ _ _
  have harrlen : (runScheduler rows.length
      (scheduleTasks (rows.map (fun x => x.company)) cikMap lf) order).toList.length =
      rows.length := by
    rw [Array.length_toList]
    exact hsize
  have hlen : (runAttribution cikMap lf order rows).length = rows.length := by
    unfold runAttribution attachLawyers
    rw [List.length_zipWith, harrlen, Nat.min_self]
  have hmain : ∀ i : Nat, (runAttribution cikMap lf order rows)[i]? =
      (rows[i]?).map (fun r =>
        { r with lawyer :=
            taskView (scheduleTasks (rows.map (fun x => x.company)) cikMap lf i) }) := by
    intro i
    by_cases hi : i < rows.length
    · unfold runAttribution attachLawyers
      rw [List.getElem?_zipWith]
      have h2 : (runScheduler rows.length
          (scheduleTasks (rows.map (fun x => x.company)) cikMap lf) order).toList[i]? =
          some (taskView (scheduleTasks (rows.map (fun x => x.company)) cikMap lf i)) := by
        rw [← Array.getElem?_eq_getElem?_toList]
        exact runScheduler_get rows.length _ order hperm i hi
      rw [h2, List.getElem?_eq_getElem hi]
      rfl
    · have h1 : rows[i]? = none := List.getElem?_eq_none (Nat.le_of_not_lt hi)
      have h3 : (runAttribution cikMap lf order rows)[i]? = none := by
        apply List.getElem?_eq_none
        rw [hlen]
        exact Nat.le_of_not_lt hi
      rw [h1, h3]
      rfl
  refine ⟨hlen, hmain, ?_⟩
  intro i e he
  rw [hmain i, he]
  rfl

/-- C4 witness: two rows under an always-raising extractor and reversed
completion order still give two rows, all with the not-found lawyer. -/
theorem attribution_scheduler_total_witness :
    ([1, 0].Perm (List.range sampleSchedulerRows.length)) ∧
    (runAttribution sampleCikMap failTask [1, 0] sampleSchedulerRows).length =
      sampleSchedulerRows.length ∧
    (runAttribution sampleCikMap failTask [1, 0] sampleSchedulerRows)[0]? =
      some { sampleRowA with lawyer := none } :=
  ⟨by decide,
    (attribution_scheduler_total sampleCikMap failTask sampleSchedulerRows [1, 0] (by decide)).1,
    ((attribution_scheduler_total sampleCikMap failTask sampleSchedulerRows [1, 0]
      (by decide)).2.2 0 "boom" rfl).trans (by rfl)⟩

theorem find?_cons_pos {α : Type} (p : α → Bool) (a : α) (l : List α) (h : p a = true) :
    (a :: l).find? p = some a := by
  simp [List.find?_cons, h]

theorem find?_cons_neg {α : Type} (p : α → Bool) (a : α) (l : List α) (h : p a = false) :
    (a :: l).find? p = l.find? p := by
  simp [List.find?_cons, h]

theorem dropDupAux_subset : ∀ (seen : List String) (l : List Filing) (x : Filing),
    x ∈ dropDupAux seen l → x ∈ l := by
  intro seen l
  induction l generalizing seen with
  | nil => intro x hx; cases hx
  | cons w ws ih =>
    intro x hx
    simp only [dropDupAux] at hx
    by_cases hw : w.clean_company_name ∈ seen
    · rw [if_pos hw] at hx
      exact List.mem_cons_of_mem w (ih seen x hx)
    · rw [if_neg hw] at hx
      rcases List.mem_cons.mp hx with rfl | hmem
      · exact List.mem_cons_self x ws
      · exact List.mem_cons_of_mem w (ih _ x hmem)

theorem dropDupAux_nodup : ∀ (seen : List String) (l : List Filing),
    ((dropDupAux seen l).map (fun x => x.clean_company_name)).Nodup ∧
    ∀ s ∈ (dropDupAux seen l).map (fun x => x.clean_company_name), s ∉ seen := by
  intro seen l
  induction l generalizing seen with
  | nil => exact ⟨List.nodup_nil, by simp [dropDupAux]⟩
  | cons w ws ih =>
    simp only [dropDupAux]
    by_cases hw : w.clean_company_name ∈ seen
    · rw [if_pos hw]
      exact ih seen
    · rw [if_neg hw]
      obtain ⟨hnd, hdisj⟩ := ih (w.clean_company_name :: seen)
      constructor
      · rw [List.map_cons, List.nodup_cons]
        exact ⟨fun hmem => (hdisj _ hmem) (List.mem_cons_self _ _), hnd⟩
      · intro s hs
        rw [List.map_cons] at hs
        rcases List.mem_cons.mp hs with rfl | hmem
        · exact hw
        · exact fun hseen => (hdisj s hmem) (List.mem_cons_of_mem _ hseen)

theorem dropDupAux_first : ∀ (seen : List String) (l : List Filing) (x : Filing),
    x ∈ dropDupAux seen l →
    x.clean_company_name ∉ seen ∧
    l.find? (fun y => y.clean_company_name == x.clean_company_name) = some x := by
  intro seen l
  induction l generalizing seen with
  | nil => intro x hx; cases hx
  | cons w ws ih =>
    intro x hx
    simp only [dropDupAux] at hx
    by_cases hw : w.clean_company_name ∈ seen
    · rw [if_pos hw] at hx
      obtain ⟨hns, hfind⟩ := ih seen x hx
      have hne : (w.clean_company_name == x.clean_company_name) = false := by
        simp only [beq_eq_false_iff_ne, ne_eq]
        intro he
        exact hns (he ▸ hw)
      rw [find?_cons_neg (fun y => y.clean_company_name == x.clean_company_name) w ws hne]
      exact ⟨hns, hfind⟩
    · rw [if_neg hw] at hx
      rcases List.mem_cons.mp hx with rfl | hmem
      · exact ⟨hw,
          by rw [find?_cons_pos (fun y => y.clean_company_name == x.clean_company_name)
            x ws (by simp)]⟩
      · obtain ⟨hns, hfind⟩ := ih (w.clean_company_name :: seen) x hmem
        have hxs : x.clean_company_name ∉ seen :=
          fun hseen => hns (List.mem_cons_of_mem _ hseen)
        have hne : (w.clean_company_name == x.clean_company_name) = false := by
          simp only [beq_eq_false_iff_ne, ne_eq]
          intro he
          exact hns (he ▸ List.mem_cons_self _ _)
        rw [find?_cons_neg (fun y => y.clean_company_name == x.clean_company_name) w ws hne]
        exact ⟨hxs, hfind⟩

theorem find?_sorted_ge : ∀ (s : List Filing), List.Pairwise gdate s →
    ∀ (c : String) (x : Filing),
    s.find? (fun y => y.clean_company_name == c) = some x →
    ∀ y ∈ s, y.clean_company_name = c → y.filing_date.toNat ≤ x.filing_date.toNat := by
  intro s
  induction s with
  | nil => intro _ c x hf; cases hf
  | cons w s' ih =>
    intro hp c x hf y hy hyc
    obtain ⟨hw, hs'⟩ := List.pairwise_cons.mp hp
    cases hwc : (w.clean_company_name == c) with
    | true =>
      rw [find?_cons_pos (fun y => y.clean_company_name == c) w s' hwc] at hf
      have hxw : w = x := by simpa using hf
      subst hxw
      rcases List.mem_cons.mp hy with rfl | hmem
      · exact Nat.le_refl _
      · exact hw y hmem
    | false =>
      rw [find?_cons_neg (fun y => y.clean_company_name == c) w s' hwc] at hf
      rcases List.mem_cons.mp hy with rfl | hmem
      · rw [hyc] at hwc
        simp at hwc
      · exact ih hs' c x hf y hmem hyc

/-- C2: the Filing Deduplicator keeps at most one record per distinct clean
company name, every kept record comes from the input, and its filing date
is at least the filing date of every same-named input record (hence, being
itself one of them, the maximum). -/
theorem dedup_unique_company_max_date (l : List Filing) :
    ((dedupStage l).map (fun x => x.clean_company_name)).Nodup ∧
    ∀ x ∈ dedupStage l, x ∈ l ∧
      ∀ y ∈ l, y.clean_company_name = x.clean_company_name →
        dateLe y.filing_date x.filing_date := by
  constructor
  · exact (dropDupAux_nodup [] (sort_values_desc l)).1
  · intro x hx
    have hs : x ∈ sort_values_desc l := dropDupAux_subset [] _ x hx
    have hxl : x ∈ l := (List.perm_insertionSort gdate l).subset hs
    refine ⟨hxl, ?_⟩
    intro y hy hname
    have hfind := (dropDupAux_first [] _ x hx).2
    have hys : y ∈ sort_values_desc l := (List.perm_insertionSort gdate l).symm.subset hy
    exact find?_sorted_ge _ (List.sorted_insertionSort gdate l) _ x hfind y hys hname

/-- C2 witness: on a concrete filing list the deduplicated output has
distinct company names, retains the later Acme Corp record, and dominates
the date of the earlier one. -/
theorem dedup_unique_company_max_date_witness :
    ((dedupStage sampleFilings).map (fun x => x.clean_company_name)).Nodup ∧
    filB ∈ dedupStage sampleFilings ∧ filA ∈ sampleFilings ∧
    dateLe filA.filing_date filB.filing_date :=
  ⟨(dedup_unique_company_max_date sampleFilings).1,
    by decide,
    by decide,
    ((dedup_unique_company_max_date sampleFilings).2 filB (by decide)).2 filA (by decide) rfl⟩

/-- C1: the deduplication step does not by itself determine which of two
equal-dated same-company records is retained.  The orders tieA-tieB and
tieB-tieA are both descending-sorted permutations of the same two-record
input (the dates are equal, so either is a legitimate output of the
source's sort_values call, whose default kind='quicksort' pandas documents
as not stable), yet drop_duplicates keep='first' retains a different
record in each.  The first-in-input-order tie-break the claim asserts is
therefore the property of a stable sort that the code never requests
(kind='stable' or 'mergesort'), not a guarantee of the program. -/
theorem dedup_tie_order_dependent :
    List.Perm [tieA, tieB] [tieB, tieA] ∧
    List.Pairwise gdate [tieA, tieB] ∧
    List.Pairwise gdate [tieB, tieA] ∧
    (drop_duplicates_first [tieA, tieB]).find?
      (fun x => x.clean_company_name == "Acme Corp") = some tieA ∧
    (drop_duplicates_first [tieB, tieA]).find?
      (fun x => x.clean_company_name == "Acme Corp") = some tieB ∧
    tieA ≠ tieB := by
  decide

theorem mergeLoan_no_match (tbl : List LoanRow) (rows : List Row)
    (h : ∀ r ∈ rows, tbl.filter (fun t => loanSymbolClean t == r.ticker_clean) = []) :
    mergeLoan tbl rows = rows.map (fun r => { r with loan := none }) := by
  induction rows with
  | nil => rfl
  | cons r rs ih =>
    have hr := h r (List.mem_cons_self r rs)
    have ih2 := ih (fun z hz => h z (List.mem_cons_of_mem r hz))
    simp only [mergeLoan, List.flatMap_cons, List.map_cons] at ih2 ⊢
    rw [hr]
    simp [ih2]

theorem attachLawyers_map_loan (rows : List Row) (arr : Array (Option String)) :
    attachLawyers (rows.map (fun r => { r with loan := none })) arr =
      (attachLawyers rows arr).map (fun r => { r with loan := none }) := by
  unfold attachLawyers
  rw [List.zipWith_map_left, List.map_zipWith]

theorem rebuildTicker_map_loan (rows : List Row) :
    rebuildTicker (rows.map (fun r => { r with loan := none })) =
      (rebuildTicker rows).map (fun r => { r with loan := none }) := by
  unfold rebuildTicker
  rw [List.map_map, List.map_map]
  rfl

theorem runAttribution_map_loan (cikMap : List (String × String))
    (lf : String → String → Except String (Option String)) (order : List Nat)
    (rows : List Row) :
    runAttribution cikMap lf order (rows.map (fun r => { r with loan := none })) =
      (runAttribution cikMap lf order rows).map (fun r => { r with loan := none }) := by
  unfold runAttribution
  rw [List.length_map]
  have hcomp : (rows.map (fun r => { r with loan := none })).map (fun r => r.company) =
      rows.map (fun r => r.company) := by
    rw [List.map_map]
    rfl
  rw [hcomp]
  exact attachLawyers_map_loan rows _

theorem loan_not_mem_finalColumns (a b : Bool) :
    ∀ col ∈ loanColumns, col ∉ finalColumns a b false := by
  cases a <;> cases b <;> decide

/-- C3: when the stock-loan feed raises, the pipeline still succeeds;
compared against a run whose feed succeeds but matches no symbol, the
result has the same row count and identical values in every non-loan
field, the loan columns are entirely absent from the failed run's schema,
and the failure is reported to the progress observer as a note. -/
theorem stock_loan_failure_is_absorbed (E : Externals) (e : String) (tbl : List LoanRow)
    (results : List RawFiling) (unique : List Filing) (rows3 : List Row)
    (log3 : List ProgressMsg)
    (hpre : preLoanStage E results = Except.ok (unique, rows3, log3))
    (hnm : ∀ r ∈ rows3, tbl.filter (fun t => loanSymbolClean t == r.ticker_clean) = []) :
    ∃ (T₁ T₂ : FinalTable) (log₁ log₂ : List ProgressMsg),
      search_law_firm_for_companies { E with loanFetch := Except.error e } results =
        (Except.ok T₁, log₁) ∧
      search_law_firm_for_companies { E with loanFetch := Except.ok tbl } results =
        (Except.ok T₂, log₂) ∧
      T₁.rows.length = T₂.rows.length ∧
      T₁.rows.map nonLoanView = T₂.rows.map nonLoanView ∧
      T₁.cols = finalColumns E.refHasHigh E.refHasLow false ∧
      (∀ col ∈ loanColumns, col ∉ T₁.cols) ∧
      ProgressMsg.loanNote e ∈ log₁ := by
  have hpre₁ : preLoanStage { E with loanFetch := Except.error e } results =
      Except.ok (unique, rows3, log3) := hpre
  have hpre₂ : preLoanStage { E with loanFetch := Except.ok tbl } results =
      Except.ok (unique, rows3, log3) := hpre
  have hrun₁ : search_law_firm_for_companies { E with loanFetch := Except.error e } results =
      (Except.ok (assemble E.refHasHigh E.refHasLow false
          (runAttribution (build_company_cik_map unique) E.lawyerFor
            (List.range (rebuildTicker rows3).length) (rebuildTicker rows3))),
        log3 ++ [ProgressMsg.addingLoan, ProgressMsg.loanNote e]
          ++ [ProgressMsg.extractingLawyers]
          ++ schedulerMessages (rebuildTicker rows3).length
          ++ [ProgressMsg.complete (assemble E.refHasHigh E.refHasLow false
            (runAttribution (build_company_cik_map unique) E.lawyerFor
              (List.range (rebuildTicker rows3).length)
              (rebuildTicker rows3))).rows.length]) := by
    unfold search_law_firm_for_companies
    rw [hpre₁]
    rfl
  have hrun₂ : search_law_firm_for_companies { E with loanFetch := Except.ok tbl } results =
      (Except.ok (assemble E.refHasHigh E.refHasLow true
          (runAttribution (build_company_cik_map unique) E.lawyerFor
            (List.range (rebuildTicker (mergeLoan tbl rows3)).length)
            (rebuildTicker (mergeLoan tbl rows3)))),
        log3 ++ [ProgressMsg.addingLoan]
          ++ [ProgressMsg.extractingLawyers]
          ++ schedulerMessages (rebuildTicker (mergeLoan tbl rows3)).length
          ++ [ProgressMsg.complete (assemble E.refHasHigh E.refHasLow true
            (runAttribution (build_company_cik_map unique) E.lawyerFor
              (List.range (rebuildTicker (mergeLoan tbl rows3)).length)
              (rebuildTicker (mergeLoan tbl rows3)))).rows.length]) := by
    unfold search_law_firm_for_companies
    rw [hpre₂]
    rfl
  rw [mergeLoan_no_match tbl rows3 hnm, rebuildTicker_map_loan, List.length_map,
    runAttribution_map_loan] at hrun₂
  refine ⟨_, _, _, _, hrun₁, hrun₂, ?_, ?_, rfl, ?_, ?_⟩
  · show (List.map toFinalRow _).length = (List.map toFinalRow (List.map _ _)).length
    rw [List.length_map, List.length_map, List.length_map]
  · show (List.map toFinalRow _).map nonLoanView =
      (List.map toFinalRow (List.map _ _)).map nonLoanView
    rw [List.map_map, List.map_map, List.map_map]
    rfl
  · exact loan_not_mem_finalColumns E.refHasHigh E.refHasLow
  · simp

/-- C3 witness: the sample run with a raising feed versus an empty feed
table instantiates the frame theorem. -/
theorem stock_loan_failure_is_absorbed_witness :
    (preLoanStage sampleExternals sampleResults =
      Except.ok (sampleUnique, sampleRows3, sampleLog3)) ∧
    (∀ r ∈ sampleRows3,
      ([] : List LoanRow).filter (fun t => loanSymbolClean t == r.ticker_clean) = []) ∧
    ∃ (T₁ T₂ : FinalTable) (log₁ log₂ : List ProgressMsg),
      search_law_firm_for_companies
          { sampleExternals with loanFetch := Except.error "boom" } sampleResults =
        (Except.ok T₁, log₁) ∧
      search_law_firm_for_companies
          { sampleExternals with loanFetch := Except.ok ([] : List LoanRow) } sampleResults =
        (Except.ok T₂, log₂) ∧
      T₁.rows.length = T₂.rows.length ∧
      T₁.rows.map nonLoanView = T₂.rows.map nonLoanView ∧
      T₁.cols = finalColumns sampleExternals.refHasHigh sampleExternals.refHasLow false ∧
      (∀ col ∈ loanColumns, col ∉ T₁.cols) ∧
      ProgressMsg.loanNote "boom" ∈ log₁ :=
  ⟨rfl, fun _ _ => rfl,
    stock_loan_failure_is_absorbed sampleExternals "boom" [] sampleResults
      sampleUnique sampleRows3 sampleLog3 rfl (fun _ _ => rfl)⟩

/-- C7 counterexample: a non-empty input whose every parsed ticker is
blank, so the deduplicated set is empty after dropping blank tickers; the
pipeline then fails with the reference-join NoMatchError, not with
NoResultsError as the claim states. -/
theorem pipeline_blank_ticker_error_counterexample :
    sampleResults ≠ [] ∧
    blankDroppedRows blankExternals sampleResults = [] ∧
    (search_law_firm_for_companies blankExternals sampleResults).1 =
      Except.error PipelineError.noMatch ∧
    PipelineError.noMatch ≠ PipelineError.noResults :=
  ⟨by decide, rfl, rfl, by decide⟩

/-- C7 amended: the pipeline fails terminally in both situations, with
NoResultsError on empty input; when the deduplicated set becomes empty
after dropping blank tickers there is no dedicated check, so the failure
surfaces through the reference-join stage as NoMatchError. -/
theorem pipeline_empty_failures (E : Externals) (results : List RawFiling) :
    (results = [] →
      (search_law_firm_for_companies E results).1 = Except.error PipelineError.noResults) ∧
    (results ≠ [] → E.filterImportant results ≠ [] → blankDroppedRows E results = [] →
      (search_law_firm_for_companies E results).1 = Except.error PipelineError.noMatch) := by
  constructor
  · rintro rfl
    rfl
  · intro h1 h2 h3
    have e1 : results.isEmpty = false := by
      cases results with
      | nil => exact absurd rfl h1
      | cons a as => rfl
    have e2 : (E.filterImportant results).isEmpty = false := by
      cases hfi : E.filterImportant results with
      | nil => exact absurd hfi h2
      | cons a as => rfl
    have hpre : preLoanStage E results = Except.error PipelineError.noMatch := by
      simp only [preLoanStage, e1, e2, h3, Bool.false_eq_true, if_false, List.map_nil,
        filter_and_enrich_tickers, List.filterMap_nil, List.isEmpty_nil, if_true]
    simp [search_law_firm_for_companies, hpre]

/-- C7 witness for the amended claim: the blank-ticker externals fail with
NoResultsError on the empty input and with NoMatchError on the concrete
all-blank input. -/
theorem pipeline_empty_failures_witness :
    sampleResults ≠ [] ∧ blankExternals.filterImportant sampleResults ≠ [] ∧
    blankDroppedRows blankExternals sampleResults = [] ∧
    (search_law_firm_for_companies blankExternals []).1 =
      Except.error PipelineError.noResults ∧
    (search_law_firm_for_companies blankExternals sampleResults).1 =
      Except.error PipelineError.noMatch :=
  ⟨by decide, by decide, rfl,
    (pipeline_empty_failures blankExternals []).1 rfl,
    (pipeline_empty_failures blankExternals sampleResults).2 (by decide) (by decide) rfl⟩

/-- C9 witness: a concrete company outside the map answers not-found under
both a raising extractor and a succeeding one. -/
theorem no_cik_no_network_witness :
    lookupAssoc sampleCikMap "Beta Inc" = none ∧
    extract_lawyer_for_row sampleCikMap failTask "Beta Inc" = Except.ok none ∧
    extract_lawyer_for_row sampleCikMap failTask "Beta Inc" =
      extract_lawyer_for_row sampleCikMap okTask "Beta Inc" :=
  ⟨rfl,
    (no_cik_no_network sampleCikMap "Beta Inc" rfl failTask okTask).1,
    (no_cik_no_network sampleCikMap "Beta Inc" rfl failTask okTask).2.2⟩

end EquityIntel
